import Mathlib

/-!
Shallow embedding of the Neural Population Likelihood Model from the notebook
`Neural_likelihood_function.ipynb` (repository lcnature/INNC).

The notebook defines, in its markdown/math cells and its completed code cells:
  * a Gaussian tuning curve `f(s) = G * exp(-(s - s_pref)^2 / (2 sigma_tc^2)) + b`;
  * the Poisson probability mass function `p(r | lam) = exp(-lam) * lam^r / r!`;
  * a tuning-curve matrix over an outer product of stimuli and preferred stimuli;
  * a population likelihood `L(s) = prod_i p(r_i | f_i(s))`;
  * an index lookup `np.argwhere(stimuli == s)[0][0]` on the grid `-60..59`.
Several code cells leave the final assignment as a fill-in placeholder; where that
happens the definition below is modelled from the specification's words (and the
notebook's own math text), and the doc comment says so.

Real numbers stand for the Python floats; lists stand for the 1-D and 2-D numpy
arrays (a 2-D array is a list of rows).
-/

namespace INNC

/-- Gaussian tuning curve of one neuron, the formula of the notebook's math cell
and of the `tuning_curves` code cell specialised to a scalar stimulus:
`f(s) = G * exp(-(s - s_pref)^2 / (2 * sigma_tc^2)) + b`. -/
noncomputable def tuning_curve (G b sigma_tc s_p s : ℝ) : ℝ :=
  G * Real.exp (-(s - s_p) ^ 2 / (2 * sigma_tc ^ 2)) + b

/-- The tuning-curve matrix of cell `b8e97369`:
`tuning_curves = G * np.exp(-(stimuli[:,None] - preferred_stimuli)**2 / 2 / sigma_tc**2) + b`.
Rows index stimuli, columns index neurons (preferred stimuli). -/
noncomputable def tuning_curves (G b sigma_tc : ℝ) (stimuli preferred_stimuli : List ℝ) :
    List (List ℝ) :=
  stimuli.map fun s => preferred_stimuli.map fun sp =>
    G * Real.exp (-(s - sp) ^ 2 / 2 / sigma_tc ^ 2) + b

/-- Poisson probability mass function of the notebook's math cell
(`stats.poisson.pmf`): `p(r | lam) = exp(-lam) * lam^r / r!`. -/
noncomputable def poisson_pmf (r : ℕ) (lam : ℝ) : ℝ :=
  Real.exp (-lam) * lam ^ r / (Nat.factorial r : ℝ)

/- ### Claim C1 -/

/-- Shared bound: the Gaussian exponent `-(s - sp)^2 / (2 * sigma^2)` is nonpositive. -/
lemma gauss_exponent_nonpos (sigma s sp : ℝ) : -(s - sp) ^ 2 / (2 * sigma ^ 2) ≤ 0 := by
  apply div_nonpos_of_nonpos_of_nonneg
  · simpa using sq_nonneg (s - sp)
  · positivity

/-- Claim C1 (amended): for valid parameters (`G ≥ 0`, `b ≥ 0`, `sigma_tc > 0`) the
expected firing rate `tuning_curve G b sigma_tc s_p s` lies in `[b, G + b]`, and when
`G > 0` it equals `G + b` exactly at `s = s_p`.  (For `G = 0` the curve is constantly
`b = G + b`, so the peak is attained at every stimulus; see the counterexample.) -/
theorem tuning_curve_range_peak (G b sigma_tc s_p s : ℝ)
    (hG : 0 ≤ G) (_hb : 0 ≤ b) (hs : 0 < sigma_tc) :
    b ≤ tuning_curve G b sigma_tc s_p s ∧
    tuning_curve G b sigma_tc s_p s ≤ G + b ∧
    (0 < G → (tuning_curve G b sigma_tc s_p s = G + b ↔ s = s_p)) := by
  have hexp_pos : 0 < Real.exp (-(s - s_p) ^ 2 / (2 * sigma_tc ^ 2)) := Real.exp_pos _
  have hexp_le : Real.exp (-(s - s_p) ^ 2 / (2 * sigma_tc ^ 2)) ≤ 1 :=
    Real.exp_le_one_iff.mpr (gauss_exponent_nonpos sigma_tc s s_p)
  refine ⟨?_, ?_, ?_⟩
  · have : 0 ≤ G * Real.exp (-(s - s_p) ^ 2 / (2 * sigma_tc ^ 2)) :=
      mul_nonneg hG hexp_pos.le
    simpa [tuning_curve] using this
  · have : G * Real.exp (-(s - s_p) ^ 2 / (2 * sigma_tc ^ 2)) ≤ G * 1 :=
      mul_le_mul_of_nonneg_left hexp_le hG
    simp only [mul_one] at this
    simpa [tuning_curve] using this
  · intro hGpos
    unfold tuning_curve
    constructor
    · intro h
      have h' : G * Real.exp (-(s - s_p) ^ 2 / (2 * sigma_tc ^ 2)) = G := by linarith
      have hexp1 : Real.exp (-(s - s_p) ^ 2 / (2 * sigma_tc ^ 2)) = 1 := by
        field_simp at h'
        rcases mul_eq_mul_left_iff.mp (by linarith [h'] : G * Real.exp (-(s - s_p) ^ 2 / (2 * sigma_tc ^ 2)) = G * 1) with h1 | h2
        · exact h1
        · exact absurd h2 (ne_of_gt hGpos)
      rw [← Real.exp_zero] at hexp1
      have hzero : -(s - s_p) ^ 2 / (2 * sigma_tc ^ 2) = 0 := Real.exp_eq_exp.mp hexp1
      have hden : (2 * sigma_tc ^ 2) ≠ 0 := by positivity
      have : -(s - s_p) ^ 2 = 0 := by
        field_simp at hzero
        simpa using hzero
      have : (s - s_p) ^ 2 = 0 := by linarith
      have := pow_eq_zero_iff (n := 2) (by norm_num) |>.mp this
      linarith [sub_eq_zero.mp this]
    · intro h
      subst h
      simp

/-- Claim C1 counterexample: with the valid parameters `G = 0`, `b = 1`,
`sigma_tc = 1`, `s_p = 0`, the curve attains `G + b` at the stimulus `s = 5 ≠ s_p`,
so "equals `G + b` only at `s == s_p`" fails as stated. -/
theorem tuning_curve_peak_counterexample :
    tuning_curve 0 1 1 0 5 = 0 + 1 ∧ (5 : ℝ) ≠ 0 := by
  constructor
  · simp [tuning_curve]
  · norm_num

/-- Witness for `tuning_curve_range_peak` at `G = 5`, `b = 1`, `sigma_tc = 10`,
`s_p = 20`, `s = 0` (the notebook's example parameters). -/
theorem tuning_curve_range_peak_witness :
    (0 : ℝ) ≤ 5 ∧ (0 : ℝ) ≤ 1 ∧ (0 : ℝ) < 10 ∧
    (1 ≤ tuning_curve 5 1 10 20 0 ∧ tuning_curve 5 1 10 20 0 ≤ 5 + 1 ∧
      (0 < (5 : ℝ) → (tuning_curve 5 1 10 20 0 = 5 + 1 ↔ (0 : ℝ) = 20))) :=
  ⟨by norm_num, by norm_num, by norm_num,
    tuning_curve_range_peak 5 1 10 20 0 (by norm_num) (by norm_num) (by norm_num)⟩

/- ### Population likelihood (claims C2, C3, C6) -/

/-- Modelled from the spec: the population neural likelihood that cell `d27dc426`
leaves as a placeholder.  The notebook's math cell gives
`p(r⃗ | s) = prod_i p(r_i | f_i(s))`, with `f_i` the columns of `tuning_curves`;
for each row of the tuning-curve matrix (one candidate stimulus) the per-neuron
Poisson masses at the observed spike counts are multiplied, giving one
likelihood value per candidate stimulus. -/
noncomputable def population_neural_likelihood (spike_counts : List ℕ)
    (G b sigma_tc : ℝ) (stimuli preferred_stimuli : List ℝ) : List ℝ :=
  (tuning_curves G b sigma_tc stimuli preferred_stimuli).map fun row =>
    ((spike_counts.zip row).map fun p => poisson_pmf p.1 p.2).prod

/-- Modelled from the spec: the log-space Poisson mass
`r * log lam - lam - logGamma(r+1)` mandated for the reimplementation
(`logGamma (r+1) = log r!`). -/
noncomputable def log_poisson_pmf (r : ℕ) (lam : ℝ) : ℝ :=
  (r : ℝ) * Real.log lam - lam - Real.log (Nat.factorial r : ℝ)

/-- Modelled from the spec: the population likelihood computed by the mandated
log-space route — per candidate stimulus, sum the per-neuron log Poisson masses
and exponentiate. -/
noncomputable def population_neural_likelihood_log (spike_counts : List ℕ)
    (G b sigma_tc : ℝ) (stimuli preferred_stimuli : List ℝ) : List ℝ :=
  (tuning_curves G b sigma_tc stimuli preferred_stimuli).map fun row =>
    Real.exp (((spike_counts.zip row).map fun p => log_poisson_pmf p.1 p.2).sum)

/-- The matrix entry of `tuning_curves` is the scalar `tuning_curve`
(`x / 2 / sigma^2 = x / (2 * sigma^2)`). -/
lemma tuning_curves_entry (G b sigma_tc s sp : ℝ) :
    G * Real.exp (-(s - sp) ^ 2 / 2 / sigma_tc ^ 2) + b =
      tuning_curve G b sigma_tc sp s := by
  unfold tuning_curve
  rw [div_div]

/-- Row-wise characterisation: the population likelihood is the map, over candidate
stimuli, of the product over (spike count, preferred stimulus) pairs of the Poisson
mass at that neuron's tuning-curve value. -/
lemma population_neural_likelihood_eq_map (spike_counts : List ℕ)
    (G b sigma_tc : ℝ) (stimuli preferred_stimuli : List ℝ) :
    population_neural_likelihood spike_counts G b sigma_tc stimuli preferred_stimuli =
      stimuli.map fun s => ((spike_counts.zip preferred_stimuli).map fun p =>
        poisson_pmf p.1 (tuning_curve G b sigma_tc p.2 s)).prod := by
  unfold population_neural_likelihood tuning_curves
  rw [List.map_map]
  apply List.map_congr_left
  intro s _
  simp only [Function.comp]
  rw [List.zip_map_right, List.map_map]
  congr 1
  apply List.map_congr_left
  intro p _
  obtain ⟨r, lam⟩ := p
  show poisson_pmf r (G * Real.exp (-(s - lam) ^ 2 / 2 / sigma_tc ^ 2) + b) =
    poisson_pmf r (tuning_curve G b sigma_tc lam s)
  rw [tuning_curves_entry]

/-- Claim C2: the population likelihood has one value per candidate stimulus, and
the value at candidate stimulus `s` is the product over neurons of the individual
Poisson masses `p(r_i | f_i(s))`. -/
theorem population_likelihood_entries (spike_counts : List ℕ)
    (G b sigma_tc : ℝ) (stimuli preferred_stimuli : List ℝ) :
    (population_neural_likelihood spike_counts G b sigma_tc stimuli preferred_stimuli).length
        = stimuli.length ∧
    ∀ (j : ℕ) (s : ℝ), stimuli[j]? = some s →
      (population_neural_likelihood spike_counts G b sigma_tc stimuli preferred_stimuli)[j]? =
        some (((spike_counts.zip preferred_stimuli).map fun p =>
          poisson_pmf p.1 (tuning_curve G b sigma_tc p.2 s)).prod) := by
  rw [population_neural_likelihood_eq_map]
  refine ⟨by simp, ?_⟩
  intro j s hj
  rw [List.getElem?_map, hj]
  rfl

/-- Witness for `population_likelihood_entries` at a one-stimulus, one-neuron input. -/
theorem population_likelihood_entries_witness :
    ([(0 : ℝ)][0]? = some (0 : ℝ)) ∧
    (population_neural_likelihood [1] 1 1 1 [0] [0])[0]? =
      some ((([1].zip [(0 : ℝ)]).map fun p =>
        poisson_pmf p.1 (tuning_curve 1 1 1 p.2 0)).prod) :=
  ⟨rfl, (population_likelihood_entries [1] 1 1 1 [0] [0]).2 0 0 rfl⟩

/-- Exponentiating one log-mass recovers the Poisson mass, for a positive rate. -/
lemma exp_log_poisson_pmf (r : ℕ) (lam : ℝ) (h : 0 < lam) :
    Real.exp (log_poisson_pmf r lam) = poisson_pmf r lam := by
  unfold log_poisson_pmf poisson_pmf
  have hfac : (0 : ℝ) < (Nat.factorial r : ℝ) := by
    exact_mod_cast Nat.factorial_pos r
  rw [Real.exp_sub, Real.exp_sub, Real.exp_nat_mul, Real.exp_log h, Real.exp_log hfac,
    Real.exp_neg]
  field_simp

/-- Exponentiating a sum of log-masses recovers the product of masses, when every
rate is positive. -/
lemma exp_sum_log_poisson_pmf (l : List (ℕ × ℝ)) (h : ∀ p ∈ l, 0 < p.2) :
    Real.exp ((l.map fun p => log_poisson_pmf p.1 p.2).sum) =
      (l.map fun p => poisson_pmf p.1 p.2).prod := by
  induction l with
  | nil => simp
  | cons a t ih =>
    simp only [List.map_cons, List.sum_cons, List.prod_cons, Real.exp_add]
    rw [exp_log_poisson_pmf a.1 a.2 (h a (by simp)),
      ih (fun p hp => h p (List.mem_cons_of_mem a hp))]

/-- Claim C3: for valid parameters with a positive baseline (`G ≥ 0`, `b > 0`, so no
rate is zero), the log-space route (sum of per-neuron log Poisson masses, then
exponentiate) gives exactly the same likelihood curve as the direct product of
per-neuron Poisson masses — the relative error is zero, within any tolerance. -/
theorem population_likelihood_log_route_eq (spike_counts : List ℕ)
    (G b sigma_tc : ℝ) (stimuli preferred_stimuli : List ℝ)
    (hG : 0 ≤ G) (hb : 0 < b) :
    population_neural_likelihood_log spike_counts G b sigma_tc stimuli preferred_stimuli =
      population_neural_likelihood spike_counts G b sigma_tc stimuli preferred_stimuli := by
  unfold population_neural_likelihood_log population_neural_likelihood
  apply List.map_congr_left
  intro row hrow
  apply exp_sum_log_poisson_pmf
  intro p hp
  obtain ⟨r, lam⟩ := p
  have h2 : lam ∈ row := (List.of_mem_zip hp).2
  obtain ⟨s, _, rfl⟩ := List.mem_map.mp hrow
  obtain ⟨sp, _, hpe⟩ := List.mem_map.mp h2
  have hnn : 0 ≤ G * Real.exp (-(s - sp) ^ 2 / 2 / sigma_tc ^ 2) :=
    mul_nonneg hG (Real.exp_pos _).le
  simp only at hpe ⊢
  rw [← hpe]
  linarith

/-- Witness for `population_likelihood_log_route_eq` with two neurons and one
candidate stimulus. -/
theorem population_likelihood_log_route_eq_witness :
    (0 : ℝ) ≤ 1 ∧ (0 : ℝ) < 1 ∧
    population_neural_likelihood_log [0, 1] 1 1 1 [0] [0, 5] =
      population_neural_likelihood [0, 1] 1 1 1 [0] [0, 5] :=
  ⟨by norm_num, by norm_num,
    population_likelihood_log_route_eq [0, 1] 1 1 1 [0] [0, 5] (by norm_num) (by norm_num)⟩

/-- Claim C6: permuting the neuron order — the observed spike counts together with
the matching preferred stimuli (hence the matching tuning curves) — leaves the
population likelihood curve unchanged at every candidate stimulus. -/
theorem population_likelihood_perm_invariant (spike_counts₁ spike_counts₂ : List ℕ)
    (preferred₁ preferred₂ : List ℝ) (G b sigma_tc : ℝ) (stimuli : List ℝ)
    (hperm : (spike_counts₁.zip preferred₁).Perm (spike_counts₂.zip preferred₂)) :
    population_neural_likelihood spike_counts₁ G b sigma_tc stimuli preferred₁ =
      population_neural_likelihood spike_counts₂ G b sigma_tc stimuli preferred₂ := by
  rw [population_neural_likelihood_eq_map, population_neural_likelihood_eq_map]
  apply List.map_congr_left
  intro s _
  exact (hperm.map _).prod_eq

/-- Witness for `population_likelihood_perm_invariant`: swapping two neurons. -/
theorem population_likelihood_perm_invariant_witness :
    (([1, 2].zip [(0 : ℝ), 5]).Perm ([2, 1].zip [(5 : ℝ), 0])) ∧
    population_neural_likelihood [1, 2] 1 1 1 [0] [0, 5] =
      population_neural_likelihood [2, 1] 1 1 1 [0] [5, 0] :=
  ⟨List.Perm.swap (2, 5) (1, 0) [],
    population_likelihood_perm_invariant [1, 2] [2, 1] [0, 5] [5, 0] 1 1 1 [0]
      (List.Perm.swap (2, 5) (1, 0) [])⟩

/- ### Claim C7: the tuning-curve matrix -/

/-- Claim C7: `tuning_curves` is a matrix over the outer product of stimuli and
preferred stimuli — one row per stimulus, one column per neuron, and entry
`(i, j)` is the expected firing rate of neuron `j` at stimulus `i`. -/
theorem tuning_curves_matrix (G b sigma_tc : ℝ) (stimuli preferred_stimuli : List ℝ) :
    (tuning_curves G b sigma_tc stimuli preferred_stimuli).length = stimuli.length ∧
    (∀ row ∈ tuning_curves G b sigma_tc stimuli preferred_stimuli,
      row.length = preferred_stimuli.length) ∧
    ∀ (i j : ℕ) (s sp : ℝ), stimuli[i]? = some s → preferred_stimuli[j]? = some sp →
      ((tuning_curves G b sigma_tc stimuli preferred_stimuli)[i]?.bind fun row => row[j]?) =
        some (tuning_curve G b sigma_tc sp s) := by
  refine ⟨by simp [tuning_curves], ?_, ?_⟩
  · intro row hrow
    obtain ⟨s, _, rfl⟩ := List.mem_map.mp hrow
    simp
  · intro i j s sp hi hj
    unfold tuning_curves
    rw [List.getElem?_map, hi]
    simp only [Option.map_some', Option.some_bind]
    rw [List.getElem?_map, hj]
    simp only [Option.map_some']
    rw [tuning_curves_entry]

/-- Witness for `tuning_curves_matrix` at a concrete grid. -/
theorem tuning_curves_matrix_witness :
    ([(0 : ℝ), 1][1]? = some (1 : ℝ)) ∧ ([(3 : ℝ)][0]? = some (3 : ℝ)) ∧
    ((tuning_curves 5 1 10 [0, 1] [3])[1]?.bind fun row => row[0]?) =
      some (tuning_curve 5 1 10 3 1) :=
  ⟨rfl, rfl, (tuning_curves_matrix 5 1 10 [0, 1] [3]).2.2 1 0 1 3 rfl rfl⟩

/- ### Validated components (claims C4, C5) -/

/-- The spec's single error kind for input validation. -/
inductive ModelError
  | invalidParameter
deriving DecidableEq

/-- Modelled from the spec: the reimplemented TuningCurveModel must reject
`sigma_tc ≤ 0` with an InvalidParameter condition at the point of invocation,
instead of silently producing NaN/Inf; otherwise it returns the tuning-curve
value. -/
noncomputable def tuning_curve_checked (G b sigma_tc s_p s : ℝ) : Except ModelError ℝ :=
  if sigma_tc ≤ 0 then .error .invalidParameter
  else .ok (tuning_curve G b sigma_tc s_p s)

/-- Claim C4: for `sigma_tc ≤ 0` the TuningCurveModel fails with InvalidParameter;
for `sigma_tc > 0` it returns exactly the (finite, real) tuning-curve value — it
never returns a NaN/Inf payload. -/
theorem tuning_curve_checked_rejects (G b sigma_tc s_p s : ℝ) :
    (sigma_tc ≤ 0 →
      tuning_curve_checked G b sigma_tc s_p s = .error .invalidParameter) ∧
    (0 < sigma_tc →
      tuning_curve_checked G b sigma_tc s_p s = .ok (tuning_curve G b sigma_tc s_p s)) := by
  constructor
  · intro h
    unfold tuning_curve_checked
    rw [if_pos h]
  · intro h
    unfold tuning_curve_checked
    rw [if_neg (not_le.mpr h)]

/-- Witness for `tuning_curve_checked_rejects` at `sigma_tc = 0`. -/
theorem tuning_curve_checked_rejects_witness :
    ((0 : ℝ) ≤ 0) ∧ tuning_curve_checked 5 1 0 20 0 = .error .invalidParameter :=
  ⟨le_refl 0, (tuning_curve_checked_rejects 5 1 0 20 0).1 (le_refl 0)⟩

/-- Modelled from the spec: the reimplemented SpikeCountSampler. `draw` stands for
the isolated Poisson pseudo-random source (`stats.poisson.rvs`), yielding the
sampled non-negative integer spike count of neuron `i` at its rate; the sampler
validates the rates, then draws one count per rate. -/
noncomputable def spike_counts_sample (rates : List ℝ) (draw : ℕ → ℝ → ℕ) :
    Except ModelError (List ℕ) :=
  if ∀ r ∈ rates, 0 ≤ r then .ok (rates.enum.map fun p => draw p.1 p.2)
  else .error .invalidParameter

/-- Claim C5: on an all-non-negative rate vector the sampler returns a list of
natural-number spike counts of the same length as the input; on any vector
holding a negative rate it fails with InvalidParameter. -/
theorem spike_counts_sample_spec (rates : List ℝ) (draw : ℕ → ℝ → ℕ) :
    ((∀ r ∈ rates, 0 ≤ r) → ∃ out, spike_counts_sample rates draw = .ok out ∧
      out.length = rates.length) ∧
    ((∃ r ∈ rates, r < 0) →
      spike_counts_sample rates draw = .error .invalidParameter) := by
  constructor
  · intro h
    refine ⟨rates.enum.map fun p => draw p.1 p.2, ?_, by simp⟩
    unfold spike_counts_sample
    rw [if_pos h]
  · rintro ⟨r, hr, hneg⟩
    have hnot : ¬ ∀ x ∈ rates, 0 ≤ x := fun hall => absurd (hall r hr) (not_le.mpr hneg)
    unfold spike_counts_sample
    rw [if_neg hnot]

/-- Witness for `spike_counts_sample_spec` on the rate vector `[1, 2]` with a
constant draw. -/
theorem spike_counts_sample_spec_witness :
    (∀ r ∈ [(1 : ℝ), 2], 0 ≤ r) ∧
    ∃ out, spike_counts_sample [(1 : ℝ), 2] (fun _ _ => 3) = .ok out ∧ out.length = 2 :=
  ⟨by norm_num, (spike_counts_sample_spec [(1 : ℝ), 2] (fun _ _ => 3)).1 (by norm_num)⟩

/- ### Claim C8: zero observed spike count -/

/-- Zipping against a same-length replicate of `0` pairs every element with `0`. -/
lemma replicate_zip_map (f : ℕ × ℝ → ℝ) (l : List ℝ) :
    ((List.replicate l.length (0 : ℕ)).zip l).map f = l.map fun a => f (0, a) := by
  induction l with
  | nil => simp
  | cons a t ih => simp [List.replicate_succ, ih]

/-- Product of a constant map. -/
lemma prod_map_const (c : ℝ) (l : List ℝ) : (l.map fun _ => c).prod = c ^ l.length := by
  induction l with
  | nil => simp
  | cons a t ih => simp [ih, pow_succ, mul_comm]

/-- Claim C8: with an observed count of `r = 0` the Poisson likelihood is the
well-defined value `exp (-lam)`: strictly positive, at most `1` for `lam ≥ 0`, and
tending to `0` as the expected rate grows; and with all counts zero and flat
tuning curves (`G = 0`) the population likelihood curve is the uniform, strictly
positive value `exp (-b) ^ n` at every candidate stimulus. -/
theorem zero_count_likelihood_wellformed :
    (∀ lam : ℝ, poisson_pmf 0 lam = Real.exp (-lam)) ∧
    (∀ lam : ℝ, 0 < poisson_pmf 0 lam) ∧
    (∀ lam : ℝ, 0 ≤ lam → poisson_pmf 0 lam ≤ 1) ∧
    Filter.Tendsto (fun lam => poisson_pmf 0 lam) Filter.atTop (nhds 0) ∧
    (∀ (b sigma_tc : ℝ) (stimuli preferred_stimuli : List ℝ),
      population_neural_likelihood (List.replicate preferred_stimuli.length 0)
          0 b sigma_tc stimuli preferred_stimuli =
        (stimuli.map fun _ => Real.exp (-b) ^ preferred_stimuli.length) ∧
      0 < Real.exp (-b) ^ preferred_stimuli.length) := by
  have hpmf : ∀ lam : ℝ, poisson_pmf 0 lam = Real.exp (-lam) := by
    intro lam
    simp [poisson_pmf]
  refine ⟨hpmf, ?_, ?_, ?_, ?_⟩
  · intro lam
    rw [hpmf]
    exact Real.exp_pos _
  · intro lam hlam
    rw [hpmf]
    exact Real.exp_le_one_iff.mpr (by linarith)
  · have : (fun lam => poisson_pmf 0 lam) = fun lam => Real.exp (-lam) := funext hpmf
    rw [this]
    exact Real.tendsto_exp_neg_atTop_nhds_zero
  · intro b sigma_tc stimuli preferred_stimuli
    constructor
    · rw [population_neural_likelihood_eq_map]
      apply List.map_congr_left
      intro s _
      rw [replicate_zip_map]
      have : (preferred_stimuli.map fun a =>
          poisson_pmf (0, a).1 (tuning_curve 0 b sigma_tc (0, a).2 s)) =
          preferred_stimuli.map fun _ => Real.exp (-b) := by
        apply List.map_congr_left
        intro sp _
        rw [hpmf (tuning_curve 0 b sigma_tc sp s)]
        simp [tuning_curve]
      rw [this, prod_map_const]
    · positivity

/-- Witness for `zero_count_likelihood_wellformed` at `lam = 1`. -/
theorem zero_count_likelihood_wellformed_witness :
    (0 : ℝ) ≤ 1 ∧ poisson_pmf 0 1 ≤ 1 :=
  ⟨by norm_num, zero_count_likelihood_wellformed.2.2.1 1 (by norm_num)⟩

/- ### Claim C10: grid lookup via argwhere -/

/-- The candidate-stimulus grid of cell `55beae17`: `stimuli = np.arange(-60, 60)`,
the integers `-60, ..., 59`. -/
def stimuli_grid : List ℤ := (List.range 120).map fun (n : ℕ) => (n : ℤ) - 60

/-- Embedding of `np.argwhere(stimuli == s)`: the list of indices of `l` whose
entry equals `s`, in increasing order. -/
def argwhere_eq (l : List ℤ) (s : ℤ) : List ℕ :=
  (List.range l.length).filter fun i => l.get? i == some s

/-- Embedding of `np.argwhere(stimuli == s)[0][0]`: the first matching index, or
`none` when indexing the empty match list fails out of bounds. -/
def stim_index (l : List ℤ) (s : ℤ) : Option ℕ := (argwhere_eq l s).head?

/-- Lookup succeeds on members: the returned index points back at `s`. -/
lemma stim_index_mem (l : List ℤ) (s : ℤ) (h : s ∈ l) :
    ∃ i, stim_index l s = some i ∧ l.get? i = some s := by
  obtain ⟨n, hn⟩ := List.mem_iff_get?.mp h
  have hlen : n < l.length := (List.get?_eq_some.mp hn).1
  have hmem : n ∈ argwhere_eq l s := by
    unfold argwhere_eq
    rw [List.mem_filter]
    exact ⟨List.mem_range.mpr hlen, by simp only [beq_iff_eq]; exact hn⟩
  have hne : argwhere_eq l s ≠ [] := List.ne_nil_of_mem hmem
  cases hh : (argwhere_eq l s).head? with
  | none => exact absurd (List.head?_eq_none_iff.mp hh) hne
  | some i =>
    refine ⟨i, hh, ?_⟩
    have hi : i ∈ argwhere_eq l s := List.mem_of_mem_head? (by rw [hh]; exact rfl)
    unfold argwhere_eq at hi
    rw [List.mem_filter] at hi
    simpa using hi.2

/-- Lookup fails (out-of-bounds on the empty match list) off the grid. -/
lemma stim_index_not_mem (l : List ℤ) (s : ℤ) (h : s ∉ l) : stim_index l s = none := by
  unfold stim_index
  rw [List.head?_eq_none_iff]
  unfold argwhere_eq
  rw [List.filter_eq_nil_iff]
  intro i _
  simp only [beq_iff_eq]
  intro hget
  exact h (List.get?_mem hget)

/-- Membership in the grid is exactly `-60 ≤ s < 60`. -/
lemma mem_stimuli_grid (s : ℤ) : s ∈ stimuli_grid ↔ -60 ≤ s ∧ s < 60 := by
  unfold stimuli_grid
  constructor
  · intro h
    obtain ⟨n, hn, rfl⟩ := List.mem_map.mp h
    have := List.mem_range.mp hn
    omega
  · rintro ⟨h1, h2⟩
    exact List.mem_map.mpr ⟨(s + 60).toNat, List.mem_range.mpr (by omega), by omega⟩

/-- Claim C10: on the grid `-60..59` the `argwhere` lookup returns an index `i`
with `stimuli[i] = s` whenever `s` is on the grid, and fails (no value) whenever
`s` is off the grid. -/
theorem argwhere_grid_lookup (s : ℤ) :
    (-60 ≤ s ∧ s < 60 → ∃ i, stim_index stimuli_grid s = some i ∧
      stimuli_grid.get? i = some s) ∧
    (¬(-60 ≤ s ∧ s < 60) → stim_index stimuli_grid s = none) := by
  constructor
  · intro h
    exact stim_index_mem _ _ ((mem_stimuli_grid s).mpr h)
  · intro h
    exact stim_index_not_mem _ _ (fun hm => h ((mem_stimuli_grid s).mp hm))

/-- Witness for `argwhere_grid_lookup` at the notebook's true stimulus `s = -20`. -/
theorem argwhere_grid_lookup_witness :
    ((-60 : ℤ) ≤ -20 ∧ (-20 : ℤ) < 60) ∧
    ∃ i, stim_index stimuli_grid (-20) = some i ∧ stimuli_grid.get? i = some (-20) :=
  ⟨by norm_num, (argwhere_grid_lookup (-20)).1 (by norm_num)⟩

end INNC
